import Mathlib

/-!
# Verification of the dinodoro timer (src/dinodoro.ts)

Shallow embedding of the dinodoro command-line Pomodoro timer.

Modelling choices, mapped to the source:

* JavaScript numbers that can flow into `originalVolume` are either an
  integer or `NaN` (the result of a failed `parseInt`); they are embedded
  as `JSNum`.
* Each externally visible side effect (an `osascript` dispatch, an `open`
  call, a `console.error`, one of the three timestamped "event" log lines
  of the scheduler) is embedded as an `Action`.  Purely cosmetic
  `logStatus` lines that accompany a media action inside the same source
  function are folded into that action's constructor.
* The JS event loop is embedded as an explicit timer queue: a pending list
  of registered timers, fired in expiry order with ties broken by
  registration order (the semantics of `setTimeout`).  `runCycle`'s nested
  `setTimeout` is a registration performed by a firing handler, recorded
  with its registering handler in `regBy`.
* Fallible external calls (`runCommand`) are embedded as `Except` values
  supplied as parameters: `Except.error` is a thrown invocation,
  `Except.ok out` is a completed one with stdout `out`.
-/

namespace Dinodoro

/-- A JavaScript number as it can appear in `originalVolume`:
`NaN` (from a failed `parseInt`) or an integer. -/
inductive JSNum where
  | nan : JSNum
  | int (v : Int) : JSNum
deriving DecidableEq

/-- Whitespace for `String.prototype.trim` (space, tab, LF, CR cover the
outputs this program trims). -/
def jsWhitespace (c : Char) : Bool :=
  c == Char.ofNat 32 || c == Char.ofNat 9 || c == Char.ofNat 10 || c == Char.ofNat 13

/-- `s.trim()` of JavaScript: strip leading and trailing whitespace. -/
def jsTrim (s : String) : String :=
  String.mk (((s.toList.dropWhile jsWhitespace).reverse.dropWhile jsWhitespace).reverse)

/-- `s.startsWith(p)` of JavaScript. -/
def jsStartsWith (s p : String) : Bool :=
  p.toList.isPrefixOf s.toList

/-- Decimal digit test for `parseInt`. -/
def isDigitC (c : Char) : Bool :=
  (48 ≤ c.toNat) && (c.toNat ≤ 57)

/-- Value of a digit string. -/
def digitsVal (cs : List Char) : Nat :=
  cs.foldl (fun a c => a * 10 + (c.toNat - 48)) 0

/-- `parseInt(s, 10)` of JavaScript: skip leading whitespace, optional
sign, longest digit run; `NaN` when no digits are found. -/
def jsParseInt (s : String) : JSNum :=
  match s.toList.dropWhile jsWhitespace with
  | [] => .nan
  | c :: rest =>
    if c = Char.ofNat 45 then
      match rest.takeWhile isDigitC with
      | [] => .nan
      | ds => .int (-(digitsVal ds : Int))
    else if c = Char.ofNat 43 then
      match rest.takeWhile isDigitC with
      | [] => .nan
      | ds => .int (digitsVal ds)
    else
      match (c :: rest).takeWhile isDigitC with
      | [] => .nan
      | ds => .int (digitsVal ds)

/-- `getVolume` from the source: a successful `osascript` call parses the
trimmed stdout with `parseInt`; a throwing call is caught, logged
(`console.error`) and 50 is returned.  The result pairs the returned
number with whether the failure branch logged. -/
def getVolume (r : Except String String) : JSNum × Bool :=
  match r with
  | .ok out => (jsParseInt (jsTrim out), false)
  | .error _ => (.int 50, true)

/-- `playlistExists` from the source: a successful call returns
`stdout.trim() === "true"`; a throwing call is caught and `false` is
returned. -/
def playlistExistsRes (r : Except String String) : Bool :=
  match r with
  | .ok out => jsTrim out == "true"
  | .error _ => false

/-! ## Playlist-name sanitization and the generated AppleScript strings -/

/-- The single-quote character. -/
def quoteChar : Char := Char.ofNat 39

/-- The backslash character. -/
def bsChar : Char := Char.ofNat 92

/-- The double-quote character. -/
def dqChar : Char := Char.ofNat 34

/-- The closing-parenthesis character. -/
def rpChar : Char := Char.ofNat 41

/-- Per-character effect of `name.replace(/'/g, "'\\''")`: each single
quote becomes the four characters quote, backslash, quote, quote; every
other character is kept. -/
def escQuote (c : Char) : List Char :=
  if c = quoteChar then [quoteChar, bsChar, quoteChar, quoteChar] else [c]

/-- `name.replace(/'/g, "'\\''")` over the character list. -/
def sanitizeChars : List Char → List Char
  | [] => []
  | c :: cs => escQuote c ++ sanitizeChars cs

/-- The sanitized playlist name as a string. -/
def sanitizeName (s : String) : String :=
  String.mk (sanitizeChars s.toList)

/-- Characters of the `playPlaylist` AppleScript up to the opening quote
of the playlist-name string literal. -/
def playPreChars : List Char :=
  ("tell application \"Music\" to play playlist \"").toList

/-- Characters of the `playlistExists` AppleScript up to the opening quote
of the playlist-name string literal. -/
def existsPreChars : List Char :=
  ("tell application \"Music\" to exists (playlist named \"").toList

/-- The full `playPlaylist` script: template with the sanitized name
interpolated between double quotes. -/
def playScriptChars (name : String) : List Char :=
  playPreChars ++ sanitizeChars name.toList ++ [dqChar]

/-- The full `playlistExists` script. -/
def existsScriptChars (name : String) : List Char :=
  existsPreChars ++ sanitizeChars name.toList ++ [dqChar, rpChar]

/-- Scanner for the body of a double-quoted string literal with
backslash escapes: given the characters after the opening quote, returns
the literal's body and the characters after the closing quote, or `none`
when the literal never terminates.  A premature termination of the
interpolated name shows up as a scan result whose body is shorter than
the interpolated text. -/
def dqScan : Bool → List Char → Option (List Char × List Char)
  | _, [] => none
  | true, c :: rest => (dqScan false rest).map (fun p => (c :: p.1, p.2))
  | false, c :: rest =>
    if c = dqChar then some ([], rest)
    else if c = bsChar then (dqScan true rest).map (fun p => (c :: p.1, p.2))
    else (dqScan false rest).map (fun p => (c :: p.1, p.2))

/-- Scan a double-quoted literal body from just after the opening quote
(no pending escape). -/
def dqBody (cs : List Char) : Option (List Char × List Char) :=
  dqScan false cs

/-! ## Configuration, operating mode, actions -/

/-- The flag-derived configuration: `--work`, `--break`, `--interval`,
`--last-break` (minutes are naturals; the claims under verification all
assume positive durations and `cycleCount ≥ 1`). -/
structure Config where
  workMin : Nat
  breakMin : Nat
  cycles : Nat
  lastBreak : Bool
deriving DecidableEq

/-- `WORK_INTERVAL_MS`. -/
def workIntervalMs (cfg : Config) : Nat := cfg.workMin * 60 * 1000

/-- `BREAK_INTERVAL_MS`. -/
def breakIntervalMs (cfg : Config) : Nat := cfg.breakMin * 60 * 1000

/-- `CYCLE_DURATION_MS`. -/
def cycleDurationMs (cfg : Config) : Nat := workIntervalMs cfg + breakIntervalMs cfg

/-- `operatingMode`. -/
inductive Mode where
  | system | music | youtube
deriving DecidableEq

/-- Externally visible side effects of the program. -/
inductive Action where
  | workStart (k : Nat)        -- the "Starting work interval k of N" event of runCycle
  | breakStart (k : Nat)       -- the "Starting break k of N" event of the break handler
  | complete                   -- the "All cycles complete" event of runFinalActions
  | resumeMusic                -- resumeMusic(): osascript play
  | pauseMusic                 -- pauseMusic(): osascript pause
  | stopMusic                  -- stopMusic(): osascript stop
  | setVolume (v : JSNum)      -- setVolume(level): restore (level = originalVolume) or mute (0)
  | getVolQuery                -- the osascript volume query of getVolume
  | playSound                  -- playCompletionSound() (the 5-beep afplay loop)
  | openUrl (u : String)       -- runCommand(["open", u])
  | checkPlaylist (p : String) -- the playlistExists osascript call
  | playPlaylistA (p : String) -- playPlaylist(name): osascript play playlist
  | setShuffleRepeat           -- the 500ms-delayed shuffle/repeat script of playPlaylist
  | searchCatalog (p : String) -- searchAndPlayMusic(term): open music://...search
  | consoleError (s : String)  -- console.error
deriving DecidableEq

/-- A trace entry: the absolute offset (ms from scheduling) at which the
handler dispatch emitting the action fired, with the action. -/
abbrev Entry := Nat × Action

/-! ## The timer queue -/

/-- The handlers this program ever passes to `setTimeout`:
`runCycle(k)` (registered up front by main's loop), the break-slot
callback that `runCycle(k)` itself registers, and `runFinalActions`
(registered up front by main when `--last-break` is set). -/
inductive Handler where
  | runCycleT (k : Nat)
  | breakSlotT (k : Nat)
  | finalT
deriving DecidableEq

/-- A registered timer: expiry offset, handler, and the handler that
performed the registration (`none` for the up-front registrations made by
`main` before any timer fires). -/
structure TimerReg where
  fireAt : Nat
  hnd : Handler
  regBy : Option Handler
deriving DecidableEq

/-- Media action performed at the start of a work interval
(`runCycle`: resumeMusic in music mode, else restoreSystemVolume). -/
def mediaWorkAct (mode : Mode) (orig : JSNum) : Action :=
  match mode with
  | .music => .resumeMusic
  | _ => .setVolume orig

/-- Media action performed at the start of a break
(pauseMusic in music mode, else muteSystem = setVolume 0). -/
def mediaBreakAct (mode : Mode) : Action :=
  match mode with
  | .music => .pauseMusic
  | _ => .setVolume (.int 0)

/-- The entries emitted by `runFinalActions` at dispatch time `t`:
the completion event, then stopMusic (music mode) or
restoreSystemVolume, then the completion sound. -/
def finalActs (mode : Mode) (orig : JSNum) (t : Nat) : List Entry :=
  [(t, .complete),
   (t, match mode with | .music => .stopMusic | _ => .setVolume orig),
   (t, .playSound)]

/-- Semantics of one handler dispatch at absolute offset `t`: the entries
it emits, and the `setTimeout` registrations it performs (expiry offset
and handler).  Mirrors `runCycle` / its break callback /
`runFinalActions`. -/
def runHandler (cfg : Config) (mode : Mode) (orig : JSNum) (h : Handler) (t : Nat) :
    List Entry × List (Nat × Handler) :=
  match h with
  | .runCycleT k =>
    ([(t, mediaWorkAct mode orig), (t, .workStart k)],
     [(t + workIntervalMs cfg, .breakSlotT k)])
  | .breakSlotT k =>
    if k = cfg.cycles ∧ cfg.lastBreak = false then
      (finalActs mode orig t, [])
    else
      ([(t, .breakStart k), (t, mediaBreakAct mode)], [])
  | .finalT => (finalActs mode orig t, [])

/-- Pop the timer that fires next: smallest expiry, ties broken by
position in the pending list (which is kept in registration order), as
the JS timer queue does. -/
def popMin : List TimerReg → Option (TimerReg × List TimerReg)
  | [] => none
  | t :: rest =>
    match popMin rest with
    | none => some (t, [])
    | some (m, l) => if t.fireAt ≤ m.fireAt then some (t, rest) else some (m, t :: l)

/-- Event-loop state: pending timers (registration order), the emitted
trace, and the log of every registration ever made. -/
structure EvState where
  pending : List TimerReg
  trace : List Entry
  regLog : List TimerReg
deriving DecidableEq

/-- One event-loop step: fire the next timer; `none` when no timer is
pending. -/
def stepLoop (cfg : Config) (mode : Mode) (orig : JSNum) (s : EvState) : Option EvState :=
  match popMin s.pending with
  | none => none
  | some (tr, rest) =>
    let out := runHandler cfg mode orig tr.hnd tr.fireAt
    let newRegs := out.2.map (fun r => { fireAt := r.1, hnd := r.2, regBy := some tr.hnd })
    some { pending := rest ++ newRegs,
           trace := s.trace ++ out.1,
           regLog := s.regLog ++ newRegs }

/-- Run the event loop for at most `fuel` dispatches (the program makes
`2 * cycles + 1` dispatches at most, so any larger fuel runs it to
quiescence). -/
def runLoop (cfg : Config) (mode : Mode) (orig : JSNum) : Nat → EvState → EvState
  | 0, s => s
  | f + 1, s =>
    match stepLoop cfg mode orig s with
    | none => s
    | some s2 => runLoop cfg mode orig f s2

/-- The up-front `setTimeout(() => runCycle(i + 1), i * CYCLE_DURATION_MS)`
registrations of main's for-loop, for `i = k, ..., k + n - 1`. -/
def cycleTimers (cfg : Config) : Nat → Nat → List TimerReg
  | _, 0 => []
  | i, n + 1 =>
    { fireAt := i * cycleDurationMs cfg, hnd := .runCycleT (i + 1), regBy := none }
      :: cycleTimers cfg (i + 1) n

/-- The up-front `setTimeout(runFinalActions, totalProgramDuration)`
registration made when `--last-break` is set. -/
def finalPend (cfg : Config) : List TimerReg :=
  if cfg.lastBreak then
    [{ fireAt := cfg.cycles * cycleDurationMs cfg, hnd := .finalT, regBy := none }]
  else []

/-- All registrations main makes before any timer fires. -/
def initTimers (cfg : Config) : List TimerReg :=
  cycleTimers cfg 0 cfg.cycles ++ finalPend cfg

/-- The scheduler: main's up-front registrations run to quiescence. -/
def schedRun (cfg : Config) (mode : Mode) (orig : JSNum) : EvState :=
  runLoop cfg mode orig (2 * cfg.cycles + 2)
    { pending := initTimers cfg, trace := [], regLog := initTimers cfg }

/-! ## Closed forms the run is proved equal to -/

/-- Expected trace of cycles `i + 1, ..., i + n`: each cycle's work
dispatch at `i * cd` followed by its break-slot dispatch at
`i * cd + w`. -/
def blocksFrom (cfg : Config) (mode : Mode) (orig : JSNum) : Nat → Nat → List Entry
  | _, 0 => []
  | i, n + 1 =>
    (runHandler cfg mode orig (.runCycleT (i + 1)) (i * cycleDurationMs cfg)).1
      ++ (runHandler cfg mode orig (.breakSlotT (i + 1)) (i * cycleDurationMs cfg + workIntervalMs cfg)).1
      ++ blocksFrom cfg mode orig (i + 1) n

/-- Expected trailing entries: the independent `runFinalActions` dispatch
when `--last-break` is set. -/
def finalTail (cfg : Config) (mode : Mode) (orig : JSNum) : List Entry :=
  if cfg.lastBreak then finalActs mode orig (cfg.cycles * cycleDurationMs cfg) else []

/-- Offsets of the scheduled events (work-start, then break-start or
completion) of cycles `i + 1, ..., i + n`, in firing order. -/
def evTimes (cfg : Config) : Nat → Nat → List Nat
  | _, 0 => []
  | i, n + 1 =>
    i * cycleDurationMs cfg :: (i * cycleDurationMs cfg + workIntervalMs cfg)
      :: evTimes cfg (i + 1) n

/-- Expected handler-made registrations: the break-slot timer of cycle
`i + 1` is registered by `runCycle(i + 1)`. -/
def slotRegs (cfg : Config) : Nat → Nat → List TimerReg
  | _, 0 => []
  | i, n + 1 =>
    { fireAt := i * cycleDurationMs cfg + workIntervalMs cfg,
      hnd := .breakSlotT (i + 1), regBy := some (.runCycleT (i + 1)) }
      :: slotRegs cfg (i + 1) n

/-! ## Startup (mode selection) and the whole program -/

/-- JS truthiness of an optional string (`undefined` and `""` are
falsy). -/
def strTruthy (o : Option String) : Bool :=
  o.getD "" != ""

/-- The `youtubeUrl && youtubeUrl.startsWith("http")` test of main. -/
def urlSelected (pos : Option String) : Bool :=
  strTruthy pos && jsStartsWith (pos.getD "") "http"

/-- The two `console.error` lines of the playlist-not-found branch. -/
def errNotFound (p : String) : String :=
  "\n❌ Error: Playlist \"" ++ p ++ "\" not found in your local library."

/-- The second remedial line. -/
def errHint : String :=
  "   To search the Apple Music catalog instead, add the --search flag.\n"

/-- Result of main's startup section: selected mode, startup actions in
order, exit code if `Deno.exit` was called, and the value of
`originalVolume` afterwards (initialized to 50, overwritten from
`getVolume` in the system and youtube branches only). -/
structure StartupResult where
  mode : Mode
  acts : List Action
  exitCode : Option Nat
  originalVolume : JSNum
deriving DecidableEq

/-- Main's mode-selection / startup logic (source lines 210-235).
`plRes` is the outcome of the `playlistExists` command, `volRes` the
outcome of the volume-query command. -/
def startup (pos pl : Option String) (searchFlag : Bool)
    (plRes volRes : Except String String) : StartupResult :=
  if urlSelected pos then
    { mode := .youtube,
      acts := [.openUrl (pos.getD ""), .getVolQuery],
      exitCode := none,
      originalVolume := (getVolume volRes).1 }
  else if strTruthy pl then
    let p := pl.getD ""
    if playlistExistsRes plRes then
      { mode := .music,
        acts := [.checkPlaylist p, .playPlaylistA p, .setShuffleRepeat],
        exitCode := none, originalVolume := .int 50 }
    else if searchFlag then
      { mode := .music,
        acts := [.checkPlaylist p, .searchCatalog p],
        exitCode := none, originalVolume := .int 50 }
    else
      { mode := .music,
        acts := [.checkPlaylist p, .consoleError (errNotFound p), .consoleError errHint],
        exitCode := some 1, originalVolume := .int 50 }
  else
    { mode := .system,
      acts := [.getVolQuery],
      exitCode := none,
      originalVolume := (getVolume volRes).1 }

/-- The whole program: startup, then (unless `Deno.exit` ran) the
scheduler.  Startup actions are at offset 0.  Returns the trace and the
exit code. -/
def dinodoro (cfg : Config) (pos pl : Option String) (searchFlag : Bool)
    (plRes volRes : Except String String) : List Entry × Option Nat :=
  let st := startup pos pl searchFlag plRes volRes
  match st.exitCode with
  | some c => (st.acts.map (fun a => (0, a)), some c)
  | none =>
    (st.acts.map (fun a => (0, a)) ++ (schedRun cfg st.mode st.originalVolume).trace, none)

/-! ## Event predicates -/

/-- The entry is a work-start event. -/
def isWorkE (e : Entry) : Bool :=
  match e.2 with | .workStart _ => true | _ => false

/-- The entry is a break-start event. -/
def isBreakE (e : Entry) : Bool :=
  match e.2 with | .breakStart _ => true | _ => false

/-- The entry is the completion event. -/
def isCompleteE (e : Entry) : Bool :=
  match e.2 with | .complete => true | _ => false

/-- The entry is one of the scheduled events (work-start, break-start,
completion). -/
def isEventE (e : Entry) : Bool :=
  isWorkE e || isBreakE e || isCompleteE e

/-- The action reads or writes the system volume (`getVolume` query or
`setVolume` dispatch). -/
def isVolA (a : Action) : Bool :=
  match a with | .setVolume _ => true | .getVolQuery => true | _ => false

/-! ## Timer-queue lemmas -/

theorem popMin_mem {l : List TimerReg} {m : TimerReg} {r : List TimerReg}
    (h : popMin l = some (m, r)) : m ∈ l := by
  induction l generalizing m r with
  | nil => simp [popMin] at h
  | cons t rest ih =>
    rw [popMin] at h
    cases hp : popMin rest with
    | none => rw [hp] at h; simp at h; simp [h.1]
    | some p =>
      rw [hp] at h
      by_cases hle : t.fireAt ≤ p.1.fireAt
      · simp [hle] at h; simp [h.1]
      · simp [hle] at h
        have hm : p.1 ∈ rest := ih (m := p.1) (r := p.2) (by rw [hp])
        right
        rw [h.1] at hm
        exact hm

theorem popMin_none {l : List TimerReg} (h : popMin l = none) : l = [] := by
  cases l with
  | nil => rfl
  | cons t rest =>
    rw [popMin] at h
    cases hp : popMin rest with
    | none => rw [hp] at h; simp at h
    | some p => rw [hp] at h; by_cases hle : t.fireAt ≤ p.1.fireAt <;> simp [hle] at h

theorem popMin_head {t : TimerReg} {rest : List TimerReg}
    (h : ∀ u ∈ rest, t.fireAt < u.fireAt) : popMin (t :: rest) = some (t, rest) := by
  rw [popMin]
  cases hp : popMin rest with
  | none => rw [popMin_none hp]
  | some p =>
    have hm : p.1 ∈ rest := popMin_mem (by rw [hp])
    simp [Nat.le_of_lt (h p.1 hm)]

theorem popMin_last {m : TimerReg} {l : List TimerReg}
    (h : ∀ u ∈ l, m.fireAt < u.fireAt) : popMin (l ++ [m]) = some (m, l) := by
  induction l with
  | nil => rfl
  | cons t rest ih =>
    have hrest : ∀ u ∈ rest, m.fireAt < u.fireAt := fun u hu => h u (by simp [hu])
    rw [List.cons_append, popMin, ih hrest]
    have : ¬ t.fireAt ≤ m.fireAt := Nat.not_le.mpr (h t (by simp))
    simp [this]

theorem runLoop_pending_nil {cfg : Config} {mode : Mode} {orig : JSNum} {f : Nat}
    {s : EvState} (h : s.pending = []) : runLoop cfg mode orig f s = s := by
  cases f with
  | zero => rfl
  | succ f' => rw [runLoop, stepLoop, h]; rfl

theorem stepLoop_eq {cfg : Config} {mode : Mode} {orig : JSNum} {s : EvState}
    {tr : TimerReg} {rest : List TimerReg} (h : popMin s.pending = some (tr, rest)) :
    stepLoop cfg mode orig s = some
      { pending := rest ++ (runHandler cfg mode orig tr.hnd tr.fireAt).2.map
          (fun r => { fireAt := r.1, hnd := r.2, regBy := some tr.hnd }),
        trace := s.trace ++ (runHandler cfg mode orig tr.hnd tr.fireAt).1,
        regLog := s.regLog ++ (runHandler cfg mode orig tr.hnd tr.fireAt).2.map
          (fun r => { fireAt := r.1, hnd := r.2, regBy := some tr.hnd }) } := by
  rw [stepLoop, h]

theorem runLoop_step {cfg : Config} {mode : Mode} {orig : JSNum} {f : Nat}
    {s s2 : EvState} (h : stepLoop cfg mode orig s = some s2) :
    runLoop cfg mode orig (f + 1) s = runLoop cfg mode orig f s2 := by
  rw [runLoop, h]

theorem cycleTimers_mem {cfg : Config} :
    ∀ {n i : Nat} {u : TimerReg}, u ∈ cycleTimers cfg i n →
      ∃ j, j < n ∧ u = { fireAt := (i + j) * cycleDurationMs cfg,
                         hnd := .runCycleT (i + j + 1), regBy := none } := by
  intro n
  induction n with
  | zero => intro i u h; simp [cycleTimers] at h
  | succ m ih =>
    intro i u h
    rw [cycleTimers] at h
    rcases List.mem_cons.mp h with h1 | h2
    · exact ⟨0, by omega, by simpa using h1⟩
    · obtain ⟨j, hj, hu⟩ := ih h2
      refine ⟨j + 1, by omega, ?_⟩
      have h3 : i + 1 + j = i + (j + 1) := by omega
      rw [hu, h3]

theorem finalPend_mem {cfg : Config} {u : TimerReg} (h : u ∈ finalPend cfg) :
    u = { fireAt := cfg.cycles * cycleDurationMs cfg, hnd := .finalT, regBy := none } := by
  rw [finalPend] at h
  by_cases hl : cfg.lastBreak
  · simp [hl] at h; exact h
  · simp [hl] at h

theorem runHandler_snd_breakSlot (cfg : Config) (mode : Mode) (orig : JSNum)
    (k t : Nat) : (runHandler cfg mode orig (.breakSlotT k) t).2 = [] := by
  rw [runHandler]
  split <;> rfl

theorem runHandler_snd_finalT (cfg : Config) (mode : Mode) (orig : JSNum)
    (t : Nat) : (runHandler cfg mode orig .finalT t).2 = [] := rfl

/-! ## Positivity facts -/

theorem workIntervalMs_pos {cfg : Config} (hw : 1 ≤ cfg.workMin) :
    0 < workIntervalMs cfg := by
  rw [workIntervalMs]
  exact Nat.mul_pos (Nat.mul_pos hw (by norm_num)) (by norm_num)

theorem breakIntervalMs_pos {cfg : Config} (hb : 1 ≤ cfg.breakMin) :
    0 < breakIntervalMs cfg := by
  rw [breakIntervalMs]
  exact Nat.mul_pos (Nat.mul_pos hb (by norm_num)) (by norm_num)

theorem cycleDurationMs_pos {cfg : Config} (hw : 1 ≤ cfg.workMin) :
    0 < cycleDurationMs cfg := by
  rw [cycleDurationMs]
  exact Nat.lt_of_lt_of_le (workIntervalMs_pos hw) (Nat.le_add_right _ _)

theorem workIntervalMs_lt_cycle {cfg : Config} (hb : 1 ≤ cfg.breakMin) :
    workIntervalMs cfg < cycleDurationMs cfg := by
  rw [cycleDurationMs]
  exact Nat.lt_add_of_pos_right (breakIntervalMs_pos hb)

/-! ## The run of the scheduler, characterized -/

/-- The invariant of the event loop: from pending cycle timers
`i + 1, ..., i + n` (plus the final timer when `--last-break` is set) the
loop runs to quiescence, alternating each cycle's work dispatch with the
break-slot dispatch that the work dispatch registered, and finally the
independent `runFinalActions` dispatch. -/
theorem runLoop_inv (cfg : Config) (mode : Mode) (orig : JSNum)
    (hw : 1 ≤ cfg.workMin) (hb : 1 ≤ cfg.breakMin) :
    ∀ (n i f : Nat) (T : List Entry) (R : List TimerReg),
      i + n = cfg.cycles → 2 * n + 2 ≤ f →
      runLoop cfg mode orig f
          { pending := cycleTimers cfg i n ++ finalPend cfg, trace := T, regLog := R } =
        { pending := [],
          trace := T ++ blocksFrom cfg mode orig i n ++ finalTail cfg mode orig,
          regLog := R ++ slotRegs cfg i n } := by
  have hcd : 0 < cycleDurationMs cfg := cycleDurationMs_pos hw
  have hwc : workIntervalMs cfg < cycleDurationMs cfg := workIntervalMs_lt_cycle hb
  intro n
  induction n with
  | zero =>
    intro i f T R hi hf
    rw [cycleTimers, List.nil_append]
    by_cases hl : cfg.lastBreak
    · obtain ⟨f2, rfl⟩ : ∃ f2, f = f2 + 1 := ⟨f - 1, by omega⟩
      have hpop : popMin (finalPend cfg) =
          some ({ fireAt := cfg.cycles * cycleDurationMs cfg, hnd := .finalT,
                  regBy := none }, []) := by
        rw [finalPend, if_pos hl]; rfl
      rw [runLoop_step (stepLoop_eq hpop)]
      rw [runLoop_pending_nil (by simp [runHandler_snd_finalT])]
      simp [blocksFrom, finalTail, hl, slotRegs, runHandler]
    · have hpend : finalPend cfg = [] := by rw [finalPend, if_neg hl]
      rw [runLoop_pending_nil (by simp [hpend])]
      simp [blocksFrom, finalTail, hl, slotRegs, hpend]
  | succ m ih =>
    intro i f T R hi hf
    obtain ⟨f2, rfl, hf2⟩ : ∃ f2, f = f2 + 2 ∧ 2 * m + 2 ≤ f2 :=
      ⟨f - 2, by omega, by omega⟩
    rw [cycleTimers, List.cons_append]
    -- step 1: the work-start dispatch of cycle i + 1 fires first
    have hpop1 : popMin
        ({ fireAt := i * cycleDurationMs cfg, hnd := Handler.runCycleT (i + 1),
           regBy := none } :: (cycleTimers cfg (i + 1) m ++ finalPend cfg)) =
        some ({ fireAt := i * cycleDurationMs cfg, hnd := .runCycleT (i + 1),
                regBy := none }, cycleTimers cfg (i + 1) m ++ finalPend cfg) := by
      apply popMin_head
      intro u hu
      rcases List.mem_append.mp hu with hc | hfp
      · obtain ⟨j, _, rfl⟩ := cycleTimers_mem hc
        exact mul_lt_mul_of_pos_right (by omega) hcd
      · rw [finalPend_mem hfp]
        exact mul_lt_mul_of_pos_right (by omega) hcd
    rw [show f2 + 2 = (f2 + 1) + 1 from rfl, runLoop_step (stepLoop_eq hpop1)]
    show runLoop cfg mode orig (f2 + 1)
        { pending := (cycleTimers cfg (i + 1) m ++ finalPend cfg) ++
            [{ fireAt := i * cycleDurationMs cfg + workIntervalMs cfg,
               hnd := .breakSlotT (i + 1), regBy := some (.runCycleT (i + 1)) }],
          trace := T ++ [(i * cycleDurationMs cfg, mediaWorkAct mode orig),
                         (i * cycleDurationMs cfg, .workStart (i + 1))],
          regLog := R ++
            [{ fireAt := i * cycleDurationMs cfg + workIntervalMs cfg,
               hnd := .breakSlotT (i + 1), regBy := some (.runCycleT (i + 1)) }] } = _
    -- step 2: the break-slot timer just registered fires before the
    -- remaining cycle timers
    have hlt2 : ∀ u ∈ cycleTimers cfg (i + 1) m ++ finalPend cfg,
        i * cycleDurationMs cfg + workIntervalMs cfg < u.fireAt := by
      intro u hu
      have hstep : i * cycleDurationMs cfg + workIntervalMs cfg
          < (i + 1) * cycleDurationMs cfg := by
        rw [Nat.succ_mul]
        exact Nat.add_lt_add_left hwc _
      rcases List.mem_append.mp hu with hc | hfp
      · obtain ⟨j, _, rfl⟩ := cycleTimers_mem hc
        exact Nat.lt_of_lt_of_le hstep (mul_le_mul_right' (by omega) _)
      · rw [finalPend_mem hfp]
        exact Nat.lt_of_lt_of_le hstep (mul_le_mul_right' (by omega) _)
    have hpop2 : popMin ((cycleTimers cfg (i + 1) m ++ finalPend cfg) ++
        [{ fireAt := i * cycleDurationMs cfg + workIntervalMs cfg,
           hnd := .breakSlotT (i + 1), regBy := some (.runCycleT (i + 1)) }]) =
        some ({ fireAt := i * cycleDurationMs cfg + workIntervalMs cfg,
                hnd := .breakSlotT (i + 1), regBy := some (.runCycleT (i + 1)) },
              cycleTimers cfg (i + 1) m ++ finalPend cfg) :=
      popMin_last hlt2
    rw [runLoop_step (stepLoop_eq hpop2)]
    rw [runHandler_snd_breakSlot]
    simp only [List.map_nil, List.append_nil]
    rw [ih (i + 1) f2 _ _ (by omega) hf2]
    simp [blocksFrom, slotRegs, runHandler, List.append_assoc]

/-- The scheduler's full run in closed form. -/
theorem schedRun_eq (cfg : Config) (mode : Mode) (orig : JSNum)
    (hw : 1 ≤ cfg.workMin) (hb : 1 ≤ cfg.breakMin) :
    schedRun cfg mode orig =
      { pending := [],
        trace := blocksFrom cfg mode orig 0 cfg.cycles ++ finalTail cfg mode orig,
        regLog := initTimers cfg ++ slotRegs cfg 0 cfg.cycles } := by
  rw [schedRun, initTimers]
  rw [runLoop_inv cfg mode orig hw hb cfg.cycles 0 (2 * cfg.cycles + 2) [] _
    (by omega) (by omega)]
  simp

/-! ## Filters over the closed-form trace -/

theorem filter_finalActs_work (mode : Mode) (orig : JSNum) (t : Nat) :
    (finalActs mode orig t).filter isWorkE = [] := by cases mode <;> rfl

theorem filter_finalActs_break (mode : Mode) (orig : JSNum) (t : Nat) :
    (finalActs mode orig t).filter isBreakE = [] := by cases mode <;> rfl

theorem filter_finalActs_complete (mode : Mode) (orig : JSNum) (t : Nat) :
    (finalActs mode orig t).filter isCompleteE = [(t, .complete)] := by
  cases mode <;> rfl

theorem filter_finalActs_event (mode : Mode) (orig : JSNum) (t : Nat) :
    (finalActs mode orig t).filter isEventE = [(t, .complete)] := by
  cases mode <;> rfl

theorem cyc_filter_work (cfg : Config) (mode : Mode) (orig : JSNum) (k t : Nat) :
    ((runHandler cfg mode orig (.runCycleT k) t).1.filter isWorkE) =
      [(t, .workStart k)] := by
  cases mode <;> rfl

theorem cyc_filter_break (cfg : Config) (mode : Mode) (orig : JSNum) (k t : Nat) :
    ((runHandler cfg mode orig (.runCycleT k) t).1.filter isBreakE) = [] := by
  cases mode <;> rfl

theorem cyc_filter_complete (cfg : Config) (mode : Mode) (orig : JSNum) (k t : Nat) :
    ((runHandler cfg mode orig (.runCycleT k) t).1.filter isCompleteE) = [] := by
  cases mode <;> rfl

theorem cyc_filter_event (cfg : Config) (mode : Mode) (orig : JSNum) (k t : Nat) :
    ((runHandler cfg mode orig (.runCycleT k) t).1.filter isEventE) =
      [(t, .workStart k)] := by
  cases mode <;> rfl

theorem slot_filter_work (cfg : Config) (mode : Mode) (orig : JSNum) (k t : Nat) :
    ((runHandler cfg mode orig (.breakSlotT k) t).1.filter isWorkE) = [] := by
  rw [runHandler]
  split
  · exact filter_finalActs_work mode orig t
  · cases mode <;> rfl

theorem slot_filter_break (cfg : Config) (mode : Mode) (orig : JSNum) (k t : Nat) :
    ((runHandler cfg mode orig (.breakSlotT k) t).1.filter isBreakE) =
      if k = cfg.cycles ∧ cfg.lastBreak = false then [] else [(t, .breakStart k)] := by
  rw [runHandler]
  split
  · exact filter_finalActs_break mode orig t
  · cases mode <;> rfl

theorem slot_filter_complete (cfg : Config) (mode : Mode) (orig : JSNum) (k t : Nat) :
    ((runHandler cfg mode orig (.breakSlotT k) t).1.filter isCompleteE) =
      if k = cfg.cycles ∧ cfg.lastBreak = false then [(t, .complete)] else [] := by
  rw [runHandler]
  split
  · exact filter_finalActs_complete mode orig t
  · cases mode <;> rfl

theorem slot_event_times (cfg : Config) (mode : Mode) (orig : JSNum) (k t : Nat) :
    (((runHandler cfg mode orig (.breakSlotT k) t).1.filter isEventE).map Prod.fst) =
      [t] := by
  rw [runHandler]
  split
  · rw [filter_finalActs_event]; rfl
  · cases mode <;> rfl

/-- There are exactly `n` work-start events in cycles `i+1 .. i+n`, at the
closed-form offsets. -/
theorem blocksFrom_filter_work (cfg : Config) (mode : Mode) (orig : JSNum) :
    ∀ (n i : Nat), (blocksFrom cfg mode orig i n).filter isWorkE =
      (List.range n).map
        (fun j => ((i + j) * cycleDurationMs cfg, Action.workStart (i + j + 1))) := by
  intro n
  induction n with
  | zero => intro i; rfl
  | succ m ih =>
    intro i
    rw [blocksFrom, List.filter_append, List.filter_append,
      cyc_filter_work, slot_filter_work, ih (i + 1)]
    rw [List.range_succ_eq_map, List.map_cons, List.map_map]
    have h0 : ((i + 0) * cycleDurationMs cfg, Action.workStart (i + 0 + 1)) =
        (i * cycleDurationMs cfg, Action.workStart (i + 1)) := by norm_num
    rw [h0]
    have hfun : ∀ j ∈ List.range m,
        ((i + 1 + j) * cycleDurationMs cfg, Action.workStart (i + 1 + j + 1)) =
        (((fun j => ((i + j) * cycleDurationMs cfg, Action.workStart (i + j + 1))) ∘
          Nat.succ) j) := by
      intro j _
      simp only [Function.comp]
      have : i + 1 + j = i + Nat.succ j := by omega
      rw [this]
    rw [List.map_congr_left hfun]
    rfl

/-- There are exactly `n` break-start events in cycles `i+1 .. i+n` when
`--last-break` is set, else `n - 1` (the last cycle's slot runs
`runFinalActions` instead), at the closed-form offsets. -/
theorem blocksFrom_filter_break (cfg : Config) (mode : Mode) (orig : JSNum) :
    ∀ (n i : Nat), i + n = cfg.cycles →
      (blocksFrom cfg mode orig i n).filter isBreakE =
        (List.range (if cfg.lastBreak then n else n - 1)).map
          (fun j => ((i + j) * cycleDurationMs cfg + workIntervalMs cfg,
                     Action.breakStart (i + j + 1))) := by
  intro n
  induction n with
  | zero =>
    intro i _
    cases cfg.lastBreak <;> simp [blocksFrom]
  | succ m ih =>
    intro i hi
    rw [blocksFrom, List.filter_append, List.filter_append, cyc_filter_break,
      slot_filter_break, ih (i + 1) (by omega), List.nil_append]
    by_cases hl : cfg.lastBreak = true
    · have hc : ¬ (i + 1 = cfg.cycles ∧ cfg.lastBreak = false) := by
        rw [hl]; simp
      rw [if_neg hc, if_pos hl, if_pos hl]
      rw [List.range_succ_eq_map, List.map_cons, List.map_map]
      have h0 : ((i + 0) * cycleDurationMs cfg + workIntervalMs cfg,
          Action.breakStart (i + 0 + 1)) =
          (i * cycleDurationMs cfg + workIntervalMs cfg,
           Action.breakStart (i + 1)) := by norm_num
      rw [h0]
      rw [List.singleton_append]
      congr 1
      refine List.map_congr_left ?_
      intro j _
      simp only [Function.comp]
      have h1 : i + 1 + j = i + Nat.succ j := by omega
      rw [h1]
    · have hl' : cfg.lastBreak = false := by
        revert hl; cases cfg.lastBreak <;> simp
      cases m with
      | zero =>
        rw [if_pos ⟨by omega, hl'⟩, if_neg hl, if_neg hl]
        simp
      | succ m2 =>
        have hc : ¬ (i + 1 = cfg.cycles ∧ cfg.lastBreak = false) :=
          fun hcc => absurd hcc.1 (by omega)
        rw [if_neg hc, if_neg hl, if_neg hl]
        have hm : m2 + 1 + 1 - 1 = m2 + 1 := by omega
        have hm2 : m2 + 1 - 1 = m2 := by omega
        rw [hm, hm2, List.range_succ_eq_map, List.map_cons, List.map_map]
        have h0 : ((i + 0) * cycleDurationMs cfg + workIntervalMs cfg,
            Action.breakStart (i + 0 + 1)) =
            (i * cycleDurationMs cfg + workIntervalMs cfg,
             Action.breakStart (i + 1)) := by norm_num
        rw [h0]
        rw [List.singleton_append]
        congr 1
        refine List.map_congr_left ?_
        intro j _
        simp only [Function.comp]
        have h1 : i + 1 + j = i + Nat.succ j := by omega
        rw [h1]

/-- The completion event inside the cycle blocks: exactly one, in the last
cycle's slot, iff `--last-break` is off (and there is at least one
cycle). -/
theorem blocksFrom_filter_complete (cfg : Config) (mode : Mode) (orig : JSNum) :
    ∀ (n i : Nat), i + n = cfg.cycles →
      (blocksFrom cfg mode orig i n).filter isCompleteE =
        if cfg.lastBreak = false ∧ 1 ≤ n
        then [((cfg.cycles - 1) * cycleDurationMs cfg + workIntervalMs cfg,
               Action.complete)]
        else [] := by
  intro n
  induction n with
  | zero =>
    intro i _
    simp [blocksFrom]
  | succ m ih =>
    intro i hi
    rw [blocksFrom, List.filter_append, List.filter_append, cyc_filter_complete,
      slot_filter_complete, ih (i + 1) (by omega), List.nil_append]
    by_cases hl : cfg.lastBreak = true
    · have hc : ¬ (i + 1 = cfg.cycles ∧ cfg.lastBreak = false) := by
        rw [hl]; simp
      have h1 : ¬ (cfg.lastBreak = false ∧ 1 ≤ m) := by
        rw [hl]; simp
      have h2 : ¬ (cfg.lastBreak = false ∧ 1 ≤ m + 1) := by
        rw [hl]; simp
      rw [if_neg hc, if_neg h1, if_neg h2, List.append_nil]
    · have hl' : cfg.lastBreak = false := by
        revert hl; cases cfg.lastBreak <;> simp
      cases m with
      | zero =>
        rw [if_pos ⟨by omega, hl'⟩]
        have hne : ¬ (cfg.lastBreak = false ∧ 1 ≤ 0) := fun hcc => absurd hcc.2 (by omega)
        rw [if_neg hne, List.append_nil, if_pos ⟨hl', by omega⟩]
        have hieq : i = cfg.cycles - 1 := by omega
        rw [hieq]
      | succ m2 =>
        have hc : ¬ (i + 1 = cfg.cycles ∧ cfg.lastBreak = false) :=
          fun hcc => absurd hcc.1 (by omega)
        rw [if_neg hc, List.nil_append, if_pos ⟨hl', by omega⟩, if_pos ⟨hl', by omega⟩]

/-- The offsets of the scheduled events in the cycle blocks. -/
theorem blocksFrom_event_times (cfg : Config) (mode : Mode) (orig : JSNum) :
    ∀ (n i : Nat),
      ((blocksFrom cfg mode orig i n).filter isEventE).map Prod.fst = evTimes cfg i n := by
  intro n
  induction n with
  | zero => intro i; rfl
  | succ m ih =>
    intro i
    rw [blocksFrom, List.filter_append, List.filter_append, List.map_append,
      List.map_append, cyc_filter_event, slot_event_times, ih (i + 1)]
    simp [evTimes]

/-- Filters of the trailing `runFinalActions` dispatch. -/
theorem finalTail_filter_work (cfg : Config) (mode : Mode) (orig : JSNum) :
    (finalTail cfg mode orig).filter isWorkE = [] := by
  rw [finalTail]
  split
  · exact filter_finalActs_work mode orig _
  · rfl

theorem finalTail_filter_break (cfg : Config) (mode : Mode) (orig : JSNum) :
    (finalTail cfg mode orig).filter isBreakE = [] := by
  rw [finalTail]
  split
  · exact filter_finalActs_break mode orig _
  · rfl

theorem finalTail_filter_complete (cfg : Config) (mode : Mode) (orig : JSNum) :
    (finalTail cfg mode orig).filter isCompleteE =
      if cfg.lastBreak then [(cfg.cycles * cycleDurationMs cfg, Action.complete)]
      else [] := by
  rw [finalTail]
  split
  · exact filter_finalActs_complete mode orig _
  · rfl

theorem finalTail_event_times (cfg : Config) (mode : Mode) (orig : JSNum) :
    ((finalTail cfg mode orig).filter isEventE).map Prod.fst =
      if cfg.lastBreak then [cfg.cycles * cycleDurationMs cfg] else [] := by
  rw [finalTail]
  split
  · rw [filter_finalActs_event]
    rfl
  · rfl

/-- Strict increase of the event offsets. -/
theorem evTimes_chain (cfg : Config) (hw : 1 ≤ cfg.workMin) (hb : 1 ≤ cfg.breakMin) :
    ∀ (n i : Nat), i + n = cfg.cycles →
      List.Chain' (· < ·) (evTimes cfg i n ++
        (if cfg.lastBreak then [cfg.cycles * cycleDurationMs cfg] else [])) := by
  have hw' : 0 < workIntervalMs cfg := workIntervalMs_pos hw
  have hwc : workIntervalMs cfg < cycleDurationMs cfg := workIntervalMs_lt_cycle hb
  intro n
  induction n with
  | zero =>
    intro i _
    cases cfg.lastBreak <;> simp [evTimes]
  | succ m ih =>
    intro i hi
    rw [evTimes, List.cons_append, List.cons_append, List.chain'_cons]
    refine ⟨by omega, ?_⟩
    rw [List.chain'_cons']
    refine ⟨?_, ih (i + 1) (by omega)⟩
    intro y hy
    cases m with
    | zero =>
      rw [evTimes, List.nil_append] at hy
      cases hl : cfg.lastBreak
      · rw [hl] at hy; simp at hy
      · rw [hl] at hy; simp at hy
        subst hy
        have hcy : cfg.cycles = i + 1 := by omega
        rw [hcy, Nat.succ_mul]
        omega
    | succ m2 =>
      rw [evTimes, List.cons_append] at hy
      simp at hy
      subst hy
      rw [Nat.succ_mul]
      omega

/-! ## Top-level trace characterizations -/

theorem schedTrace_filter_work (cfg : Config) (mode : Mode) (orig : JSNum)
    (hw : 1 ≤ cfg.workMin) (hb : 1 ≤ cfg.breakMin) :
    ((schedRun cfg mode orig).trace.filter isWorkE) =
      (List.range cfg.cycles).map
        (fun k => (k * cycleDurationMs cfg, Action.workStart (k + 1))) := by
  rw [schedRun_eq cfg mode orig hw hb]
  show ((blocksFrom cfg mode orig 0 cfg.cycles ++ finalTail cfg mode orig).filter isWorkE) = _
  rw [List.filter_append, blocksFrom_filter_work, finalTail_filter_work, List.append_nil]
  refine List.map_congr_left ?_
  intro j _
  norm_num

theorem schedTrace_filter_break (cfg : Config) (mode : Mode) (orig : JSNum)
    (hw : 1 ≤ cfg.workMin) (hb : 1 ≤ cfg.breakMin) :
    ((schedRun cfg mode orig).trace.filter isBreakE) =
      (List.range (cfg.cycles - (if cfg.lastBreak then 0 else 1))).map
        (fun k => (k * cycleDurationMs cfg + workIntervalMs cfg,
                   Action.breakStart (k + 1))) := by
  rw [schedRun_eq cfg mode orig hw hb]
  show ((blocksFrom cfg mode orig 0 cfg.cycles ++ finalTail cfg mode orig).filter isBreakE) = _
  rw [List.filter_append, blocksFrom_filter_break cfg mode orig cfg.cycles 0 (by omega),
    finalTail_filter_break, List.append_nil]
  have hrange : (if cfg.lastBreak then cfg.cycles else cfg.cycles - 1) =
      cfg.cycles - (if cfg.lastBreak then 0 else 1) := by
    by_cases hl : cfg.lastBreak = true
    · rw [if_pos hl, if_pos hl]; omega
    · rw [if_neg hl, if_neg hl]
  rw [hrange]
  refine List.map_congr_left ?_
  intro j _
  norm_num

theorem schedTrace_filter_complete (cfg : Config) (mode : Mode) (orig : JSNum)
    (hw : 1 ≤ cfg.workMin) (hb : 1 ≤ cfg.breakMin) (hN : 1 ≤ cfg.cycles) :
    ((schedRun cfg mode orig).trace.filter isCompleteE) =
      [(if cfg.lastBreak then cfg.cycles * cycleDurationMs cfg
        else (cfg.cycles - 1) * cycleDurationMs cfg + workIntervalMs cfg,
        Action.complete)] := by
  rw [schedRun_eq cfg mode orig hw hb]
  show ((blocksFrom cfg mode orig 0 cfg.cycles ++ finalTail cfg mode orig).filter isCompleteE) = _
  rw [List.filter_append, blocksFrom_filter_complete cfg mode orig cfg.cycles 0 (by omega),
    finalTail_filter_complete]
  by_cases hl : cfg.lastBreak = true
  · have h1 : ¬ (cfg.lastBreak = false ∧ 1 ≤ cfg.cycles) := by rw [hl]; simp
    rw [if_neg h1, if_pos hl, if_pos hl, List.nil_append]
  · have hl' : cfg.lastBreak = false := by
      revert hl; cases cfg.lastBreak <;> simp
    rw [if_pos ⟨hl', hN⟩, if_neg hl, if_neg hl, List.append_nil]

theorem schedTrace_event_times (cfg : Config) (mode : Mode) (orig : JSNum)
    (hw : 1 ≤ cfg.workMin) (hb : 1 ≤ cfg.breakMin) :
    (((schedRun cfg mode orig).trace.filter isEventE).map Prod.fst) =
      evTimes cfg 0 cfg.cycles ++
        (if cfg.lastBreak then [cfg.cycles * cycleDurationMs cfg] else []) := by
  rw [schedRun_eq cfg mode orig hw hb]
  show (((blocksFrom cfg mode orig 0 cfg.cycles ++ finalTail cfg mode orig).filter
    isEventE).map Prod.fst) = _
  rw [List.filter_append, List.map_append, blocksFrom_event_times, finalTail_event_times]

theorem schedTrace_last_work (cfg : Config) (mode : Mode) (orig : JSNum)
    (hw : 1 ≤ cfg.workMin) (hb : 1 ≤ cfg.breakMin) (hN : 1 ≤ cfg.cycles) :
    ((schedRun cfg mode orig).trace.filter isWorkE).getLast? =
      some ((cfg.cycles - 1) * cycleDurationMs cfg, Action.workStart cfg.cycles) := by
  rw [schedTrace_filter_work cfg mode orig hw hb]
  obtain ⟨m, hm⟩ : ∃ m, cfg.cycles = m + 1 := ⟨cfg.cycles - 1, by omega⟩
  rw [hm, List.range_succ, List.map_append, List.map_singleton, List.getLast?_concat]
  norm_num

theorem schedTrace_last_break (cfg : Config) (mode : Mode) (orig : JSNum)
    (hw : 1 ≤ cfg.workMin) (hb : 1 ≤ cfg.breakMin) (hN : 1 ≤ cfg.cycles)
    (hl : cfg.lastBreak = true) :
    ((schedRun cfg mode orig).trace.filter isBreakE).getLast? =
      some ((cfg.cycles - 1) * cycleDurationMs cfg + workIntervalMs cfg,
            Action.breakStart cfg.cycles) := by
  rw [schedTrace_filter_break cfg mode orig hw hb, hl]
  have h0 : cfg.cycles - (if true = true then 0 else 1) = cfg.cycles := by simp
  rw [h0]
  obtain ⟨m, hm⟩ : ∃ m, cfg.cycles = m + 1 := ⟨cfg.cycles - 1, by omega⟩
  rw [hm, List.range_succ, List.map_append, List.map_singleton, List.getLast?_concat]
  norm_num

/-! ## Registration-log lemmas -/

theorem slotRegs_mem {cfg : Config} :
    ∀ {n i : Nat} {r : TimerReg}, r ∈ slotRegs cfg i n →
      ∃ j, j < n ∧ r = { fireAt := (i + j) * cycleDurationMs cfg + workIntervalMs cfg,
                         hnd := .breakSlotT (i + j + 1),
                         regBy := some (.runCycleT (i + j + 1)) } := by
  intro n
  induction n with
  | zero => intro i r h; simp [slotRegs] at h
  | succ m ih =>
    intro i r h
    rw [slotRegs] at h
    rcases List.mem_cons.mp h with h1 | h2
    · exact ⟨0, by omega, by simpa using h1⟩
    · obtain ⟨j, hj, hr⟩ := ih h2
      refine ⟨j + 1, by omega, ?_⟩
      have h3 : i + 1 + j = i + (j + 1) := by omega
      rw [hr, h3]

theorem slotRegs_mem_of (cfg : Config) :
    ∀ (n i j : Nat), j < n →
      ({ fireAt := (i + j) * cycleDurationMs cfg + workIntervalMs cfg,
         hnd := .breakSlotT (i + j + 1),
         regBy := some (.runCycleT (i + j + 1)) } : TimerReg) ∈ slotRegs cfg i n := by
  intro n
  induction n with
  | zero => intro i j h; omega
  | succ m ih =>
    intro i j hj
    rw [slotRegs]
    cases j with
    | zero => simp
    | succ j2 =>
      have h3 : i + (j2 + 1) = i + 1 + j2 := by omega
      rw [h3]
      exact List.mem_cons_of_mem _ (ih (i + 1) j2 (by omega))

theorem initTimers_regBy_none {cfg : Config} :
    ∀ r ∈ initTimers cfg, r.regBy = none := by
  intro r hr
  rcases List.mem_append.mp hr with hc | hf
  · obtain ⟨j, _, rfl⟩ := cycleTimers_mem hc
    rfl
  · rw [finalPend_mem hf]

/-! ## Program-level helpers -/

/-- The program's exit code is the startup exit code. -/
theorem dinodoro_exit (cfg : Config) (pos pl : Option String) (searchFlag : Bool)
    (plRes volRes : Except String String) :
    (dinodoro cfg pos pl searchFlag plRes volRes).2 =
      (startup pos pl searchFlag plRes volRes).exitCode := by
  cases hec : (startup pos pl searchFlag plRes volRes).exitCode with
  | none => simp [dinodoro, hec]
  | some c => simp [dinodoro, hec]

/-- Every trace entry comes from startup or from the scheduler. -/
theorem dinodoro_trace_cases (cfg : Config) (pos pl : Option String) (searchFlag : Bool)
    (plRes volRes : Except String String) :
    ∀ e ∈ (dinodoro cfg pos pl searchFlag plRes volRes).1,
      e ∈ (startup pos pl searchFlag plRes volRes).acts.map (fun a => ((0 : Nat), a))
      ∨ e ∈ (schedRun cfg (startup pos pl searchFlag plRes volRes).mode
              (startup pos pl searchFlag plRes volRes).originalVolume).trace := by
  cases hec : (startup pos pl searchFlag plRes volRes).exitCode with
  | none =>
    simp only [dinodoro, hec]
    intro e he
    exact List.mem_append.mp he
  | some c =>
    simp only [dinodoro, hec]
    intro e he
    exact Or.inl he

/-- In music mode the startup actions never touch the system volume. -/
theorem startup_music_acts_noVol (pos pl : Option String) (searchFlag : Bool)
    (plRes volRes : Except String String)
    (hm : (startup pos pl searchFlag plRes volRes).mode = .music) :
    ∀ a ∈ (startup pos pl searchFlag plRes volRes).acts, isVolA a = false := by
  by_cases h1 : urlSelected pos = true
  · unfold startup at hm
    rw [if_pos h1] at hm
    exact absurd hm (by simp)
  · by_cases h2 : strTruthy pl = true
    · unfold startup
      rw [if_neg h1, if_pos h2]
      by_cases h3 : playlistExistsRes plRes = true
      · rw [if_pos h3]
        intro a ha
        simp at ha
        rcases ha with rfl | rfl | rfl <;> rfl
      · rw [if_neg h3]
        by_cases h4 : searchFlag = true
        · rw [if_pos h4]
          intro a ha
          simp at ha
          rcases ha with rfl | rfl <;> rfl
        · rw [if_neg h4]
          intro a ha
          simp at ha
          rcases ha with rfl | rfl | rfl <;> rfl
    · unfold startup at hm
      rw [if_neg h1, if_neg h2] at hm
      exact absurd hm (by simp)

/-- No handler dispatch in music mode touches the system volume. -/
theorem runHandler_music_noVol (cfg : Config) (orig : JSNum) (h : Handler) (t : Nat) :
    ∀ e ∈ (runHandler cfg .music orig h t).1, isVolA e.2 = false := by
  cases h with
  | runCycleT k =>
    intro e he
    simp [runHandler, mediaWorkAct] at he
    rcases he with rfl | rfl <;> rfl
  | breakSlotT k =>
    intro e he
    rw [runHandler] at he
    split at he
    · simp [finalActs] at he
      rcases he with rfl | rfl | rfl <;> rfl
    · simp [mediaBreakAct] at he
      rcases he with rfl | rfl <;> rfl
  | finalT =>
    intro e he
    simp [runHandler, finalActs] at he
    rcases he with rfl | rfl | rfl <;> rfl

/-- The event loop preserves "the trace never touches the volume" in
music mode. -/
theorem runLoop_music_noVol (cfg : Config) (orig : JSNum) :
    ∀ (f : Nat) (s : EvState),
      (∀ e ∈ s.trace, isVolA e.2 = false) →
      ∀ e ∈ (runLoop cfg .music orig f s).trace, isVolA e.2 = false := by
  intro f
  induction f with
  | zero => intro s hs; exact hs
  | succ f2 ih =>
    intro s hs
    rw [runLoop]
    cases hstep : stepLoop cfg .music orig s with
    | none => exact hs
    | some s2 =>
      refine ih s2 ?_
      rw [stepLoop] at hstep
      cases hpop : popMin s.pending with
      | none => rw [hpop] at hstep; simp at hstep
      | some p =>
        rw [hpop] at hstep
        simp at hstep
        intro e he
        rw [← hstep] at he
        rcases List.mem_append.mp he with hA | hB
        · exact hs e hA
        · exact runHandler_music_noVol cfg orig p.1.hnd p.1.fireAt e hB

/-! ## Sanitization scan -/

/-- Scanning the sanitized name inside the double-quoted literal consumes
the whole sanitized text and stops exactly at the template's closing
quote: the replacement of single quotes never terminates the literal
early. -/
theorem dqScan_false_cons (c : Char) (rest : List Char) :
    dqScan false (c :: rest) =
      if c = dqChar then some ([], rest)
      else if c = bsChar then (dqScan true rest).map (fun p => (c :: p.1, p.2))
      else (dqScan false rest).map (fun p => (c :: p.1, p.2)) := rfl

theorem dqScan_true_cons (c : Char) (rest : List Char) :
    dqScan true (c :: rest) =
      (dqScan false rest).map (fun p => (c :: p.1, p.2)) := rfl

theorem dq_scan_sanitized (suffix : List Char) :
    ∀ (cs : List Char), dqChar ∉ cs → bsChar ∉ cs →
      dqBody (sanitizeChars cs ++ dqChar :: suffix) =
        some (sanitizeChars cs, suffix) := by
  have hqd : ¬ (quoteChar = dqChar) := by decide
  have hqb : ¬ (quoteChar = bsChar) := by decide
  have hbd : ¬ (bsChar = dqChar) := by decide
  intro cs
  induction cs with
  | nil =>
    intro _ _
    rw [sanitizeChars, List.nil_append, dqBody, dqScan_false_cons, if_pos rfl]
  | cons c rest ih =>
    intro h1 h2
    rw [List.mem_cons] at h1 h2
    push_neg at h1 h2
    obtain ⟨h1c, h1r⟩ := h1
    obtain ⟨h2c, h2r⟩ := h2
    rw [dqBody] at ih ⊢
    by_cases hq : c = quoteChar
    · simp only [hq, sanitizeChars, escQuote, eq_self_iff_true, if_true,
        List.cons_append, List.nil_append, List.append_assoc]
      rw [dqScan_false_cons, if_neg hqd, if_neg hqb,
        dqScan_false_cons, if_neg hbd, if_pos rfl,
        dqScan_true_cons,
        dqScan_false_cons, if_neg hqd, if_neg hqb,
        ih h1r h2r]
      rfl
    · have hcd : ¬ (c = dqChar) := fun h => h1c h.symm
      have hcb : ¬ (c = bsChar) := fun h => h2c h.symm
      simp only [sanitizeChars, escQuote, if_neg hq, List.cons_append,
        List.nil_append]
      rw [dqScan_false_cons, if_neg hcd, if_neg hcb, ih h1r h2r]
      rfl

/-! ## The claims -/

/-- C1: for every configuration with `cycleCount ≥ 1` and positive work
and break durations, the scheduler fires exactly `cycleCount` work-start
events at offsets `(k-1) * cycleDuration` for `k = 1..cycleCount`,
exactly `cycleCount - (includeFinalBreak ? 0 : 1)` break-start events at
offsets `(k-1) * cycleDuration + workDurationMs`, and exactly one
completion event, with all scheduled-event offsets strictly
increasing. -/
theorem sched_event_counts_and_offsets (cfg : Config) (mode : Mode) (orig : JSNum)
    (hw : 1 ≤ cfg.workMin) (hb : 1 ≤ cfg.breakMin) (hN : 1 ≤ cfg.cycles) :
    ((schedRun cfg mode orig).trace.filter isWorkE) =
        (List.range cfg.cycles).map
          (fun k => (k * cycleDurationMs cfg, Action.workStart (k + 1)))
    ∧ ((schedRun cfg mode orig).trace.filter isBreakE) =
        (List.range (cfg.cycles - (if cfg.lastBreak then 0 else 1))).map
          (fun k => (k * cycleDurationMs cfg + workIntervalMs cfg,
                     Action.breakStart (k + 1)))
    ∧ ((schedRun cfg mode orig).trace.filter isCompleteE).length = 1
    ∧ List.Chain' (· < ·)
        (((schedRun cfg mode orig).trace.filter isEventE).map Prod.fst) := by
  refine ⟨schedTrace_filter_work cfg mode orig hw hb,
    schedTrace_filter_break cfg mode orig hw hb, ?_, ?_⟩
  · rw [schedTrace_filter_complete cfg mode orig hw hb hN]
    rfl
  · rw [schedTrace_event_times cfg mode orig hw hb]
    exact evTimes_chain cfg hw hb cfg.cycles 0 (by omega)

/-- C1, witnessed at `work=25, break=5, interval=4, lastBreak=false` in
system mode. -/
theorem sched_event_counts_and_offsets_witness :
    (1 ≤ (Config.mk 25 5 4 false).workMin ∧ 1 ≤ (Config.mk 25 5 4 false).breakMin ∧
      1 ≤ (Config.mk 25 5 4 false).cycles)
    ∧ (((schedRun (Config.mk 25 5 4 false) .system (.int 50)).trace.filter isWorkE) =
          (List.range (Config.mk 25 5 4 false).cycles).map
            (fun k => (k * cycleDurationMs (Config.mk 25 5 4 false),
                       Action.workStart (k + 1)))
      ∧ ((schedRun (Config.mk 25 5 4 false) .system (.int 50)).trace.filter isBreakE) =
          (List.range ((Config.mk 25 5 4 false).cycles -
              (if (Config.mk 25 5 4 false).lastBreak then 0 else 1))).map
            (fun k => (k * cycleDurationMs (Config.mk 25 5 4 false) +
                workIntervalMs (Config.mk 25 5 4 false), Action.breakStart (k + 1)))
      ∧ ((schedRun (Config.mk 25 5 4 false) .system
            (.int 50)).trace.filter isCompleteE).length = 1
      ∧ List.Chain' (· < ·)
          (((schedRun (Config.mk 25 5 4 false) .system (.int 50)).trace.filter
            isEventE).map Prod.fst)) :=
  ⟨⟨by decide, by decide, by decide⟩,
   sched_event_counts_and_offsets (Config.mk 25 5 4 false) .system (.int 50)
     (by decide) (by decide) (by decide)⟩

/-- C2 as stated is false on the code: with `includeFinalBreak` false the
completion action is not invoked synchronously at the end of the last
cycle's work-start handler.  At `work=25, break=5, interval=4,
lastBreak=false` the 4th (last) work-start dispatch runs at offset
5400000 ms (minute 90); every action invoked synchronously inside that
dispatch carries that offset, but the only completion entry is at
6900000 ms (minute 115), emitted by the break-slot timer that the
work-start handler registered, and no completion entry exists at the
work-start handler's offset. -/
theorem completion_not_sync_with_work_start_cex :
    ((schedRun (Config.mk 25 5 4 false) .system (.int 50)).trace.filter isCompleteE) =
        [(6900000, Action.complete)]
    ∧ (5400000, Action.workStart 4) ∈
        (schedRun (Config.mk 25 5 4 false) .system (.int 50)).trace
    ∧ ((5400000, Action.complete) ∉
        (schedRun (Config.mk 25 5 4 false) .system (.int 50)).trace) := by
  decide

/-- C2 (amended): the completion action fires exactly once.  When
`includeFinalBreak` is false it is invoked by the break-slot timer that
the last cycle's work-start handler registers — not synchronously inside
that handler — at offset `(cycleCount-1)*cycleDuration + workDurationMs`,
strictly after the last work-start dispatch at
`(cycleCount-1)*cycleDuration`; when `includeFinalBreak` is true it is
invoked by an independent timer at offset `cycleCount*cycleDuration`,
after the final break has started. -/
theorem completion_once_via_chained_slot (cfg : Config) (mode : Mode) (orig : JSNum)
    (hw : 1 ≤ cfg.workMin) (hb : 1 ≤ cfg.breakMin) (hN : 1 ≤ cfg.cycles) :
    ((schedRun cfg mode orig).trace.filter isCompleteE) =
      [(if cfg.lastBreak then cfg.cycles * cycleDurationMs cfg
        else (cfg.cycles - 1) * cycleDurationMs cfg + workIntervalMs cfg,
        Action.complete)]
    ∧ (cfg.lastBreak = false →
        ({ fireAt := (cfg.cycles - 1) * cycleDurationMs cfg + workIntervalMs cfg,
           hnd := .breakSlotT cfg.cycles,
           regBy := some (.runCycleT cfg.cycles) } : TimerReg)
            ∈ (schedRun cfg mode orig).regLog
        ∧ ((schedRun cfg mode orig).trace.filter isWorkE).getLast? =
            some ((cfg.cycles - 1) * cycleDurationMs cfg, Action.workStart cfg.cycles)
        ∧ (cfg.cycles - 1) * cycleDurationMs cfg
            < (cfg.cycles - 1) * cycleDurationMs cfg + workIntervalMs cfg)
    ∧ (cfg.lastBreak = true →
        ((schedRun cfg mode orig).trace.filter isBreakE).getLast? =
            some ((cfg.cycles - 1) * cycleDurationMs cfg + workIntervalMs cfg,
                  Action.breakStart cfg.cycles)
        ∧ (cfg.cycles - 1) * cycleDurationMs cfg + workIntervalMs cfg
            < cfg.cycles * cycleDurationMs cfg) := by
  have hw' := workIntervalMs_pos hw
  have hwc := workIntervalMs_lt_cycle hb
  refine ⟨schedTrace_filter_complete cfg mode orig hw hb hN, ?_, ?_⟩
  · intro _
    refine ⟨?_, schedTrace_last_work cfg mode orig hw hb hN, by omega⟩
    rw [schedRun_eq cfg mode orig hw hb]
    show _ ∈ initTimers cfg ++ slotRegs cfg 0 cfg.cycles
    refine List.mem_append_right _ ?_
    have hmem := slotRegs_mem_of cfg cfg.cycles 0 (cfg.cycles - 1) (by omega)
    have h0 : 0 + (cfg.cycles - 1) = cfg.cycles - 1 := by omega
    have h1 : cfg.cycles - 1 + 1 = cfg.cycles := by omega
    rw [h0, h1] at hmem
    exact hmem
  · intro hl
    refine ⟨schedTrace_last_break cfg mode orig hw hb hN hl, ?_⟩
    have hmul : cfg.cycles * cycleDurationMs cfg =
        (cfg.cycles - 1) * cycleDurationMs cfg + cycleDurationMs cfg := by
      rw [← Nat.succ_mul]
      congr 1
      omega
    omega

/-- C2 (amended), witnessed at `work=25, break=5, interval=4,
lastBreak=true` in music mode. -/
theorem completion_once_via_chained_slot_witness :
    (1 ≤ (Config.mk 25 5 4 true).workMin ∧ 1 ≤ (Config.mk 25 5 4 true).breakMin ∧
      1 ≤ (Config.mk 25 5 4 true).cycles)
    ∧ (((schedRun (Config.mk 25 5 4 true) .music (.int 50)).trace.filter isCompleteE) =
        [(if (Config.mk 25 5 4 true).lastBreak
          then (Config.mk 25 5 4 true).cycles * cycleDurationMs (Config.mk 25 5 4 true)
          else ((Config.mk 25 5 4 true).cycles - 1) *
              cycleDurationMs (Config.mk 25 5 4 true) +
              workIntervalMs (Config.mk 25 5 4 true),
          Action.complete)]
      ∧ ((Config.mk 25 5 4 true).lastBreak = false →
          ({ fireAt := ((Config.mk 25 5 4 true).cycles - 1) *
                cycleDurationMs (Config.mk 25 5 4 true) +
                workIntervalMs (Config.mk 25 5 4 true),
             hnd := .breakSlotT (Config.mk 25 5 4 true).cycles,
             regBy := some (.runCycleT (Config.mk 25 5 4 true).cycles) } : TimerReg)
              ∈ (schedRun (Config.mk 25 5 4 true) .music (.int 50)).regLog
          ∧ ((schedRun (Config.mk 25 5 4 true) .music
                (.int 50)).trace.filter isWorkE).getLast? =
              some (((Config.mk 25 5 4 true).cycles - 1) *
                  cycleDurationMs (Config.mk 25 5 4 true),
                Action.workStart (Config.mk 25 5 4 true).cycles)
          ∧ ((Config.mk 25 5 4 true).cycles - 1) *
                cycleDurationMs (Config.mk 25 5 4 true)
              < ((Config.mk 25 5 4 true).cycles - 1) *
                  cycleDurationMs (Config.mk 25 5 4 true) +
                  workIntervalMs (Config.mk 25 5 4 true))
      ∧ ((Config.mk 25 5 4 true).lastBreak = true →
          ((schedRun (Config.mk 25 5 4 true) .music
              (.int 50)).trace.filter isBreakE).getLast? =
              some (((Config.mk 25 5 4 true).cycles - 1) *
                  cycleDurationMs (Config.mk 25 5 4 true) +
                  workIntervalMs (Config.mk 25 5 4 true),
                Action.breakStart (Config.mk 25 5 4 true).cycles)
          ∧ ((Config.mk 25 5 4 true).cycles - 1) *
                cycleDurationMs (Config.mk 25 5 4 true) +
                workIntervalMs (Config.mk 25 5 4 true)
              < (Config.mk 25 5 4 true).cycles *
                cycleDurationMs (Config.mk 25 5 4 true))) :=
  ⟨⟨by decide, by decide, by decide⟩,
   completion_once_via_chained_slot (Config.mk 25 5 4 true) .music (.int 50)
     (by decide) (by decide) (by decide)⟩

/-- C3 as stated is false on the code: not all timer registrations are
made up front.  At `work=25, break=5, interval=4, lastBreak=false`, the
registration log contains registrations performed by firing handlers
(each `runCycle(k)` dispatch registers that cycle's break-slot timer via
a nested `setTimeout`), so the claim "no handler, when it fires,
registers a further timer" fails. -/
theorem registrations_not_all_upfront_cex :
    ¬ (∀ r ∈ (schedRun (Config.mk 25 5 4 false) .system (.int 50)).regLog,
        r.regBy = none) := by
  decide

/-- C3 (amended): the `cycleCount` work-start timers and (when
`includeFinalBreak` is set) the completion timer are registered up front
(`regBy = none`) before any handler fires; every other registration is a
break-slot timer registered by the corresponding cycle's work-start
handler when that handler fires, at offset
`(k-1)*cycleDuration + workDurationMs`. -/
theorem upfront_and_chained_registrations (cfg : Config) (mode : Mode) (orig : JSNum)
    (hw : 1 ≤ cfg.workMin) (hb : 1 ≤ cfg.breakMin) :
    (schedRun cfg mode orig).regLog = initTimers cfg ++ slotRegs cfg 0 cfg.cycles
    ∧ (∀ r ∈ initTimers cfg, r.regBy = none)
    ∧ (∀ r ∈ slotRegs cfg 0 cfg.cycles, ∃ j, j < cfg.cycles ∧
        r = { fireAt := j * cycleDurationMs cfg + workIntervalMs cfg,
              hnd := .breakSlotT (j + 1), regBy := some (.runCycleT (j + 1)) }) := by
  refine ⟨by rw [schedRun_eq cfg mode orig hw hb], initTimers_regBy_none, ?_⟩
  intro r hr
  obtain ⟨j, hj, hr'⟩ := slotRegs_mem hr
  refine ⟨j, hj, ?_⟩
  rw [hr']
  norm_num

/-- C3 (amended), witnessed at `work=1, break=1, interval=2,
lastBreak=true` in system mode. -/
theorem upfront_and_chained_registrations_witness :
    (1 ≤ (Config.mk 1 1 2 true).workMin ∧ 1 ≤ (Config.mk 1 1 2 true).breakMin)
    ∧ ((schedRun (Config.mk 1 1 2 true) .system (.int 50)).regLog =
          initTimers (Config.mk 1 1 2 true) ++
            slotRegs (Config.mk 1 1 2 true) 0 (Config.mk 1 1 2 true).cycles
      ∧ (∀ r ∈ initTimers (Config.mk 1 1 2 true), r.regBy = none)
      ∧ (∀ r ∈ slotRegs (Config.mk 1 1 2 true) 0 (Config.mk 1 1 2 true).cycles,
          ∃ j, j < (Config.mk 1 1 2 true).cycles ∧
            r = { fireAt := j * cycleDurationMs (Config.mk 1 1 2 true) +
                    workIntervalMs (Config.mk 1 1 2 true),
                  hnd := .breakSlotT (j + 1),
                  regBy := some (.runCycleT (j + 1)) })) :=
  ⟨⟨by decide, by decide⟩,
   upfront_and_chained_registrations (Config.mk 1 1 2 true) .system (.int 50)
     (by decide) (by decide)⟩

/-- C4: with a playlist name supplied that is not found in the local
library and search disabled, the program prints the two remedial error
lines and exits with status 1; with search enabled instead there is no
fatal exit and a catalog-search action is issued. -/
theorem playlist_not_found_exit_or_search (cfg : Config) (p : String)
    (plRes volRes : Except String String)
    (hp : p ≠ "") (hnf : playlistExistsRes plRes = false) :
    (startup none (some p) false plRes volRes).exitCode = some 1
    ∧ (startup none (some p) false plRes volRes).acts =
        [.checkPlaylist p, .consoleError (errNotFound p), .consoleError errHint]
    ∧ (dinodoro cfg none (some p) false plRes volRes).2 = some 1
    ∧ (startup none (some p) true plRes volRes).exitCode = none
    ∧ Action.searchCatalog p ∈ (startup none (some p) true plRes volRes).acts := by
  have h1 : ¬ (urlSelected none = true) := by decide
  have h2 : strTruthy (some p) = true := by simp [strTruthy, hp]
  have h3 : ¬ (playlistExistsRes plRes = true) := by rw [hnf]; simp
  have hsF : startup none (some p) false plRes volRes =
      ⟨.music, [.checkPlaylist p, .consoleError (errNotFound p), .consoleError errHint],
       some 1, .int 50⟩ := by
    unfold startup
    rw [if_neg h1, if_pos h2, if_neg h3, if_neg (by decide : ¬ ((false : Bool) = true))]
    rfl
  have hsT : startup none (some p) true plRes volRes =
      ⟨.music, [.checkPlaylist p, .searchCatalog p], none, .int 50⟩ := by
    unfold startup
    rw [if_neg h1, if_pos h2, if_neg h3, if_pos (rfl : (true : Bool) = true)]
    rfl
  refine ⟨by rw [hsF], by rw [hsF], ?_, by rw [hsT], ?_⟩
  · rw [dinodoro_exit, hsF]
  · rw [hsT]
    simp

/-- C4, witnessed at playlist "Jazz" with a successful existence check
returning "false". -/
theorem playlist_not_found_exit_or_search_witness :
    ("Jazz" ≠ "" ∧ playlistExistsRes (Except.ok "false") = false)
    ∧ ((startup none (some "Jazz") false (Except.ok "false") (Except.ok "50")).exitCode =
          some 1
      ∧ (startup none (some "Jazz") false (Except.ok "false") (Except.ok "50")).acts =
          [.checkPlaylist "Jazz", .consoleError (errNotFound "Jazz"), .consoleError errHint]
      ∧ (dinodoro (Config.mk 1 1 1 false) none (some "Jazz") false (Except.ok "false")
            (Except.ok "50")).2 = some 1
      ∧ (startup none (some "Jazz") true (Except.ok "false") (Except.ok "50")).exitCode =
          none
      ∧ Action.searchCatalog "Jazz" ∈
          (startup none (some "Jazz") true (Except.ok "false") (Except.ok "50")).acts) :=
  ⟨⟨by decide, by decide⟩,
   playlist_not_found_exit_or_search (Config.mk 1 1 1 false) "Jazz"
     (Except.ok "false") (Except.ok "50") (by decide) (by decide)⟩

/-- C5: when the positional argument looks like a URL (it starts with
"http", the code's test) and a playlist is also supplied, YouTube mode is
selected and the playlist is not honored: the startup actions are exactly
the URL open followed by the volume query, with no playlist check, no
playlist playback and no catalog search, and no exit. -/
theorem url_wins_over_playlist (u p : String) (searchFlag : Bool)
    (plRes volRes : Except String String)
    (hu : jsStartsWith u "http" = true) :
    (startup (some u) (some p) searchFlag plRes volRes).mode = .youtube
    ∧ (startup (some u) (some p) searchFlag plRes volRes).acts =
        [.openUrl u, .getVolQuery]
    ∧ (startup (some u) (some p) searchFlag plRes volRes).exitCode = none
    ∧ Action.checkPlaylist p ∉ (startup (some u) (some p) searchFlag plRes volRes).acts
    ∧ Action.playPlaylistA p ∉ (startup (some u) (some p) searchFlag plRes volRes).acts
    ∧ Action.searchCatalog p ∉ (startup (some u) (some p) searchFlag plRes volRes).acts := by
  have hne : u ≠ "" := by
    intro h
    rw [h] at hu
    exact absurd hu (by decide)
  have hsel : urlSelected (some u) = true := by
    rw [urlSelected]
    simp [strTruthy, hne, hu]
  have hs : startup (some u) (some p) searchFlag plRes volRes =
      ⟨.youtube, [.openUrl u, .getVolQuery], none, (getVolume volRes).1⟩ := by
    unfold startup
    rw [if_pos hsel]
    rfl
  rw [hs]
  refine ⟨rfl, rfl, rfl, ?_, ?_, ?_⟩ <;> simp

/-- C5, witnessed at positional "http://x" with playlist "Jazz". -/
theorem url_wins_over_playlist_witness :
    jsStartsWith "http://x" "http" = true
    ∧ ((startup (some "http://x") (some "Jazz") true (Except.ok "true")
          (Except.ok "50")).mode = .youtube
      ∧ (startup (some "http://x") (some "Jazz") true (Except.ok "true")
          (Except.ok "50")).acts = [.openUrl "http://x", .getVolQuery]
      ∧ (startup (some "http://x") (some "Jazz") true (Except.ok "true")
          (Except.ok "50")).exitCode = none
      ∧ Action.checkPlaylist "Jazz" ∉
          (startup (some "http://x") (some "Jazz") true (Except.ok "true")
            (Except.ok "50")).acts
      ∧ Action.playPlaylistA "Jazz" ∉
          (startup (some "http://x") (some "Jazz") true (Except.ok "true")
            (Except.ok "50")).acts
      ∧ Action.searchCatalog "Jazz" ∉
          (startup (some "http://x") (some "Jazz") true (Except.ok "true")
            (Except.ok "50")).acts) :=
  ⟨by decide,
   url_wins_over_playlist "http://x" "Jazz" true (Except.ok "true") (Except.ok "50")
     (by decide)⟩

/-- C6 as stated is false on the code: the positional value is not
trimmed before the URL test (`youtubeUrl.startsWith("http")`).  The
positional " http://youtu.be/x" begins with "http" after trimming, yet
the program selects System mode, not YouTube mode. -/
theorem trimmed_url_not_youtube_cex :
    jsStartsWith (jsTrim " http://youtu.be/x") "http" = true
    ∧ (startup (some " http://youtu.be/x") none false (Except.ok "false")
        (Except.ok "50")).mode = .system
    ∧ (startup (some " http://youtu.be/x") none false (Except.ok "false")
        (Except.ok "50")).mode ≠ .youtube := by
  decide

/-- C6 (amended): for every input whose positional value itself (no
trimming applied) begins with "http", the program transitions to YouTube
mode: it launches the URL via the OS "open" action and then captures the
current system volume as the restorable volume. -/
theorem untrimmed_url_selects_youtube (u : String) (pl : Option String)
    (searchFlag : Bool) (plRes volRes : Except String String)
    (hu : jsStartsWith u "http" = true) :
    (startup (some u) pl searchFlag plRes volRes).mode = .youtube
    ∧ (startup (some u) pl searchFlag plRes volRes).acts =
        [.openUrl u, .getVolQuery]
    ∧ (startup (some u) pl searchFlag plRes volRes).originalVolume =
        (getVolume volRes).1 := by
  have hne : u ≠ "" := by
    intro h
    rw [h] at hu
    exact absurd hu (by decide)
  have hsel : urlSelected (some u) = true := by
    rw [urlSelected]
    simp [strTruthy, hne, hu]
  have hs : startup (some u) pl searchFlag plRes volRes =
      ⟨.youtube, [.openUrl u, .getVolQuery], none, (getVolume volRes).1⟩ := by
    unfold startup
    rw [if_pos hsel]
    rfl
  rw [hs]
  exact ⟨rfl, rfl, rfl⟩

/-- C6 (amended), witnessed at "https://youtube.com/watch". -/
theorem untrimmed_url_selects_youtube_witness :
    jsStartsWith "https://youtube.com/watch" "http" = true
    ∧ ((startup (some "https://youtube.com/watch") (some "Lofi") true
          (Except.ok "false") (Except.ok "37")).mode = .youtube
      ∧ (startup (some "https://youtube.com/watch") (some "Lofi") true
          (Except.ok "false") (Except.ok "37")).acts =
          [.openUrl "https://youtube.com/watch", .getVolQuery]
      ∧ (startup (some "https://youtube.com/watch") (some "Lofi") true
          (Except.ok "false") (Except.ok "37")).originalVolume =
          (getVolume (Except.ok "37")).1) :=
  ⟨by decide,
   untrimmed_url_selects_youtube "https://youtube.com/watch" (some "Lofi") true
     (Except.ok "false") (Except.ok "37") (by decide)⟩

/-- C7: every single quote in a user-supplied playlist name is replaced
by the four-character escaped-quote sequence (quote, backslash, quote,
quote) before interpolation into the AppleScript command strings, and for
every name free of the characters that are special inside the
double-quoted literal (double quote, backslash) — in particular names
containing single quotes — scanning the generated script's name literal
consumes exactly the sanitized name and terminates at the template's
closing quote: no premature string termination. -/
theorem sanitize_script_well_terminated (name : String)
    (h1 : dqChar ∉ name.toList) (h2 : bsChar ∉ name.toList) :
    sanitizeChars (quoteChar :: name.toList) =
        quoteChar :: bsChar :: quoteChar :: quoteChar :: sanitizeChars name.toList
    ∧ playScriptChars name = playPreChars ++ sanitizeChars name.toList ++ [dqChar]
    ∧ existsScriptChars name =
        existsPreChars ++ sanitizeChars name.toList ++ [dqChar, rpChar]
    ∧ dqBody (sanitizeChars name.toList ++ [dqChar]) =
        some (sanitizeChars name.toList, [])
    ∧ dqBody (sanitizeChars name.toList ++ dqChar :: [rpChar]) =
        some (sanitizeChars name.toList, [rpChar]) := by
  refine ⟨?_, rfl, rfl, ?_, ?_⟩
  · rw [sanitizeChars, escQuote, if_pos rfl]
    rfl
  · exact dq_scan_sanitized [] name.toList h1 h2
  · exact dq_scan_sanitized [rpChar] name.toList h1 h2

/-- C7, witnessed at the name "don't". -/
theorem sanitize_script_well_terminated_witness :
    (dqChar ∉ "don't".toList ∧ bsChar ∉ "don't".toList)
    ∧ (sanitizeChars (quoteChar :: "don't".toList) =
          quoteChar :: bsChar :: quoteChar :: quoteChar :: sanitizeChars "don't".toList
      ∧ playScriptChars "don't" =
          playPreChars ++ sanitizeChars "don't".toList ++ [dqChar]
      ∧ existsScriptChars "don't" =
          existsPreChars ++ sanitizeChars "don't".toList ++ [dqChar, rpChar]
      ∧ dqBody (sanitizeChars "don't".toList ++ [dqChar]) =
          some (sanitizeChars "don't".toList, [])
      ∧ dqBody (sanitizeChars "don't".toList ++ dqChar :: [rpChar]) =
          some (sanitizeChars "don't".toList, [rpChar])) :=
  ⟨⟨by decide, by decide⟩,
   sanitize_script_well_terminated "don't" (by decide) (by decide)⟩

/-- C8: when the volume-query invocation throws, `getVolume` logs the
failure (`console.error`) and returns the fallback value 50 instead of
aborting: the program does not exit and proceeds into the scheduler with
restorable volume 50. -/
theorem getVolume_failure_fallback (cfg : Config) (e : String)
    (plRes : Except String String) :
    getVolume (Except.error e) = (JSNum.int 50, true)
    ∧ (dinodoro cfg none none false plRes (Except.error e)).2 = none
    ∧ (dinodoro cfg none none false plRes (Except.error e)).1 =
        (0, Action.getVolQuery) :: (schedRun cfg .system (.int 50)).trace := by
  exact ⟨rfl, rfl, rfl⟩

/-- C9: in Music mode no scheduled handler and no startup action reads or
writes the system volume; the work-start handler resumes playback, the
break-slot handler pauses playback (or, standing in for completion, stops
it), and the final handler stops playback. -/
theorem music_mode_never_touches_volume (cfg : Config) (pos pl : Option String)
    (searchFlag : Bool) (plRes volRes : Except String String) (orig : JSNum)
    (k t : Nat)
    (hm : (startup pos pl searchFlag plRes volRes).mode = .music) :
    ((dinodoro cfg pos pl searchFlag plRes volRes).1.all
        (fun e => !(isVolA e.2))) = true
    ∧ (runHandler cfg .music orig (.runCycleT k) t).1 =
        [(t, .resumeMusic), (t, .workStart k)]
    ∧ (runHandler cfg .music orig (.breakSlotT k) t).1 =
        (if k = cfg.cycles ∧ cfg.lastBreak = false
         then [(t, .complete), (t, .stopMusic), (t, .playSound)]
         else [(t, .breakStart k), (t, .pauseMusic)])
    ∧ (runHandler cfg .music orig .finalT t).1 =
        [(t, .complete), (t, .stopMusic), (t, .playSound)] := by
  refine ⟨?_, rfl, ?_, rfl⟩
  · rw [List.all_eq_true]
    intro e he
    have hcase := dinodoro_trace_cases cfg pos pl searchFlag plRes volRes e he
    have hv : isVolA e.2 = false := by
      rcases hcase with hA | hB
      · obtain ⟨a, ha, rfl⟩ := List.mem_map.mp hA
        exact startup_music_acts_noVol pos pl searchFlag plRes volRes hm a ha
      · rw [hm] at hB
        unfold schedRun at hB
        refine runLoop_music_noVol cfg
          (startup pos pl searchFlag plRes volRes).originalVolume _ _ ?_ e hB
        intro e' he'
        exact absurd he' (List.not_mem_nil e')
    simp [hv]
  · rw [runHandler]
    split <;> rfl

/-- C9, witnessed at playlist "Jazz" found in the library. -/
theorem music_mode_never_touches_volume_witness :
    (startup none (some "Jazz") false (Except.ok "true") (Except.ok "50")).mode = .music
    ∧ (((dinodoro (Config.mk 1 1 1 false) none (some "Jazz") false (Except.ok "true")
          (Except.ok "50")).1.all (fun e => !(isVolA e.2))) = true
      ∧ (runHandler (Config.mk 1 1 1 false) .music (.int 50) (.runCycleT 1) 0).1 =
          [(0, .resumeMusic), (0, .workStart 1)]
      ∧ (runHandler (Config.mk 1 1 1 false) .music (.int 50) (.breakSlotT 1) 0).1 =
          (if 1 = (Config.mk 1 1 1 false).cycles ∧ (Config.mk 1 1 1 false).lastBreak = false
           then [(0, .complete), (0, .stopMusic), (0, .playSound)]
           else [(0, .breakStart 1), (0, .pauseMusic)])
      ∧ (runHandler (Config.mk 1 1 1 false) .music (.int 50) .finalT 0).1 =
          [(0, .complete), (0, .stopMusic), (0, .playSound)]) :=
  ⟨by decide,
   music_mode_never_touches_volume (Config.mk 1 1 1 false) none (some "Jazz") false
     (Except.ok "true") (Except.ok "50") (.int 50) 1 0 (by decide)⟩

/-- C10: when the volume-query command completes but its stdout does not
parse as an integer, `getVolume` returns `NaN` — no fallback, no error
log — and that `NaN` becomes the restorable volume which
`restoreSystemVolume` later passes to `setVolume`; the 50 fallback
applies only when the invocation itself throws. -/
theorem nonint_stdout_gives_nan_volume (cfg : Config) (s e : String)
    (plRes : Except String String) (k t : Nat)
    (h : jsParseInt (jsTrim s) = JSNum.nan) :
    getVolume (Except.ok s) = (JSNum.nan, false)
    ∧ getVolume (Except.error e) = (JSNum.int 50, true)
    ∧ (startup none none false plRes (Except.ok s)).originalVolume = JSNum.nan
    ∧ (runHandler cfg .system JSNum.nan (.runCycleT k) t).1 =
        [(t, Action.setVolume JSNum.nan), (t, Action.workStart k)] := by
  refine ⟨?_, rfl, ?_, rfl⟩
  · show ((jsParseInt (jsTrim s), false) : JSNum × Bool) = (JSNum.nan, false)
    rw [h]
  · show jsParseInt (jsTrim s) = JSNum.nan
    exact h

/-- C10, witnessed at stdout "abc". -/
theorem nonint_stdout_gives_nan_volume_witness :
    jsParseInt (jsTrim "abc") = JSNum.nan
    ∧ (getVolume (Except.ok "abc") = (JSNum.nan, false)
      ∧ getVolume (Except.error "boom") = (JSNum.int 50, true)
      ∧ (startup none none false (Except.ok "x") (Except.ok "abc")).originalVolume =
          JSNum.nan
      ∧ (runHandler (Config.mk 1 1 1 false) .system JSNum.nan (.runCycleT 1) 0).1 =
          [(0, Action.setVolume JSNum.nan), (0, Action.workStart 1)]) :=
  ⟨by decide,
   nonint_stdout_gives_nan_volume (Config.mk 1 1 1 false) "abc" "boom"
     (Except.ok "x") 1 0 (by decide)⟩

end Dinodoro
